import Mathlib

/-!
# Mesh layer interpolator

A shallow embedding of `QgsMeshLayerInterpolator::block`
(`src/core/mesh/qgsmeshlayerinterpolator.cpp`, lines 69-150) together with the
properties of it that the specification states.

Conventions of the embedding.

* A `double` is its IEEE-754 binary64 bit pattern (`Dbl`); `block` itself does
  no arithmetic on doubles, it only copies them and tests `std::isnan`.
* `QVector` is `List`; `operator[]` outside the vector is the error
  `indexOutOfRange`.
* The output buffer `data` is the flat list `cells` of the raster block, and
  `line[k]` with `line = data + j * width` is the cell at flat index
  `j * width + k`; a write outside the buffer is the error `bufferOverrun`.
* A failing `Q_ASSERT` is the error `assertFailed`.
* Vertex indices, face indices and the width and height of a raster are natural
  numbers, the non-negative values of `int`; pixel coordinates and the limits
  of the scanned rectangle are integers.
* The polls `feedback->isCanceled()` and `mContext.renderingStopped()` are
  answered by functions of the loop index at which they are asked.
* Collaborators whose code is not part of the sources at hand
  (`QgsMeshLayerUtils`, `QgsRectangle`, `QgsMapToPixel`, `QgsRasterBlock`,
  `QgsMeshDataBlock`) are parameters, or are modelled from the specification
  where a definition says so.
-/

namespace QgsMesh

/-! ## Doubles -/

/-- A C++ `double`, given by its IEEE-754 binary64 bit pattern. -/
structure Dbl where
  bits : Nat
deriving DecidableEq

namespace Dbl

/-- The biased exponent field (11 bits). -/
def exponent (d : Dbl) : Nat := (d.bits / 2 ^ 52) % 2 ^ 11

/-- The fraction field (52 bits). -/
def fraction (d : Dbl) : Nat := d.bits % 2 ^ 52

/-- The test `std::isnan`: exponent all ones, fraction not zero. -/
def isnan (d : Dbl) : Bool := d.exponent == 2047 && d.fraction != 0

/-- The test `std::isinf`: exponent all ones, fraction zero. -/
def isinf (d : Dbl) : Bool := d.exponent == 2047 && d.fraction == 0

/-- The test `std::isfinite`: neither NaN nor an infinity. -/
def isfinite (d : Dbl) : Bool := d.exponent != 2047

end Dbl

/-- The constant `std::numeric_limits<double>::quiet_NaN()`. -/
def quiet_NaN : Dbl := ⟨0x7FF8000000000000⟩

/-- The double `+infinity`. -/
def infinity : Dbl := ⟨0x7FF0000000000000⟩

/-! ## Errors and vectors -/

/-- The ways in which a run of `block` fails instead of returning a raster. -/
inductive BlockError where
  /-- A `Q_ASSERT` did not hold. -/
  | assertFailed
  /-- A `QVector` was indexed outside its bounds. -/
  | indexOutOfRange
  /-- The pixel write `line[k] = val` fell outside the buffer of the block. -/
  | bufferOverrun
deriving DecidableEq

/-- The read `xs[i]` of a `QVector`. -/
def index {α : Type} (xs : List α) (i : Nat) : Except BlockError α :=
  match xs[i]? with
  | some a => .ok a
  | none => .error .indexOutOfRange

/-! ## The output raster -/

/-- One cell of the output raster: the stored double and the no-data mark. -/
structure Cell where
  value : Dbl
  noData : Bool
deriving DecidableEq

/-- Modelled from the spec: `QgsRasterBlock`, whose code is not among the
sources. It is "a width×height dense array of doubles plus a no-data marker per
cell", kept here as one row-major list of cells. -/
structure QgsRasterBlock where
  width : Nat
  height : Nat
  cells : List Cell
deriving DecidableEq

namespace QgsRasterBlock

/-- Modelled from the spec: the block after
`new QgsRasterBlock( Qgis::Float64, width, height )`, `setNoDataValue( NaN )`
and `setIsNoData()`: "every cell starts as no-data", with the NaN sentinel as
backing value. -/
def create (width height : Nat) : QgsRasterBlock :=
  { width := width, height := height,
    cells := List.replicate (width * height) ⟨quiet_NaN, true⟩ }

/-- Modelled from the spec: the per-pixel no-data query `isNoData( row, column )`;
a cell outside the raster counts as no-data. -/
def isNoData (b : QgsRasterBlock) (row col : Nat) : Bool :=
  match b.cells[row * b.width + col]? with
  | some c => c.noData
  | none => true

/-- Modelled from the spec: the per-pixel value query `value( row, column )`. -/
def value (b : QgsRasterBlock) (row col : Nat) : Dbl :=
  match b.cells[row * b.width + col]? with
  | some c => c.value
  | none => quiet_NaN

/-- The two statements `line[k] = val; outputBlock->setIsData( j, k );` with
`line = data + ( j * width )`: both address the flat index `j * width + k`. -/
def writeData (b : QgsRasterBlock) (width : Nat) (j k : Int) (val : Dbl) :
    Except BlockError QgsRasterBlock :=
  let idx : Int := j * (width : Int) + k
  if 0 ≤ idx ∧ idx < (b.cells.length : Int) then
    .ok { b with cells := b.cells.set idx.toNat ⟨val, false⟩ }
  else
    .error .bufferOverrun

end QgsRasterBlock

/-! ## Mesh, context and collaborators -/

/-- The type `QSize`. -/
structure QSize where
  width : Nat
  height : Nat
deriving DecidableEq

/-- The part of `QgsTriangularMesh` that `block` reads: `vertices()`,
`triangles()` (each `QgsMeshFace` a vector of vertex indices) and
`trianglesToNativeFaces()`. -/
structure QgsTriangularMesh (P : Type) where
  vertices : List P
  triangles : List (List Nat)
  trianglesToNativeFaces : List Nat

/-- The pixel coordinates of the two corners of a bounding box, after
`QgsMapToPixel::transform` and the conversion to `int`. -/
structure PixelCorners where
  llX : Int
  llY : Int
  urX : Int
  urY : Int
deriving DecidableEq

/-- The part of `QgsRenderContext` that `block` uses: the map-to-pixel transform
and the poll `renderingStopped()`, answered per loop index. -/
structure QgsRenderContext (P R : Type) where
  toMapCoordinates : Int → Int → P
  transformCorners : R → PixelCorners
  renderingStopped : Nat → Bool

/-- The static helpers of `QgsMeshLayerUtils` and of `QgsRectangle` that `block`
calls and whose code is not among the sources. `covers p1 p2 p3 pt` is the
coverage test of a triangle at a point. -/
structure MeshLayerUtils (P R : Type) where
  triangleBoundingBox : P → P → P → R
  intersects : R → R → Bool
  interpolateFromVerticesData : P → P → P → Dbl → Dbl → Dbl → P → Dbl
  covers : P → P → P → P → Bool

/-- The poll `feedback->isCanceled()`, answered per loop index. -/
structure QgsRasterBlockFeedback where
  isCanceled : Nat → Bool

/-- The members of `QgsMeshLayerInterpolator`; the `QgsMeshDataBlock` of active
flags is kept as the list of its flags, one per native face. -/
structure QgsMeshLayerInterpolator (P R : Type) where
  mTriangularMesh : QgsTriangularMesh P
  mDatasetValues : List Dbl
  mActiveFaceFlagValues : List Bool
  mContext : QgsRenderContext P R
  mDataOnVertices : Bool
  mOutputSize : QSize

/-- Modelled from the spec: `QgsMeshDataBlock::active( index )`, whose code is
not among the sources: the flags are a "boolean per original face", read at the
index of the face. -/
def active (flags : List Bool) (faceIndex : Nat) : Except BlockError Bool :=
  index flags faceIndex

/-- The limits of the pixel rectangle scanned for one triangle. -/
structure ScreenRectangle where
  leftLim : Int
  rightLim : Int
  topLim : Int
  bottomLim : Int
deriving DecidableEq

/-- Modelled from the spec: `QgsMeshLayerUtils::boundingBoxToScreenRectangle`,
whose code is not among the sources: "convert the map-space bounding box to an
inclusive pixel-index rectangle [leftLim..rightLim] × [topLim..bottomLim] using
the map-to-pixel transform; clip to the raster bounds", the bounds being the
size handed to it. -/
def boundingBoxToScreenRectangle {P R : Type} (ctx : QgsRenderContext P R)
    (outputSize : QSize) (bbox : R) : ScreenRectangle :=
  let c := ctx.transformCorners bbox
  { leftLim := max c.llX 0
    rightLim := min c.urX ((outputSize.width : Int) - 1)
    topLim := max c.urY 0
    bottomLim := min c.llY ((outputSize.height : Int) - 1) }

/-- Modelled from the spec: `QgsMeshLayerUtils::interpolateFromFacesData`, whose
code is not among the sources: "every covered pixel receives the single scalar
value assigned to that triangle's face", and a point outside the triangle is
signalled by NaN. -/
def interpolateFromFacesData {P : Type} (covers : P → P → P → P → Bool)
    (p1 p2 p3 : P) (val : Dbl) (pt : P) : Dbl :=
  if covers p1 p2 p3 pt then val else quiet_NaN

/-! ## The function `block` -/

/-- The locals of one iteration of the triangle loop (lines 92-98). -/
structure TriangleLocals (P : Type) where
  v1 : Nat
  v2 : Nat
  v3 : Nat
  p1 : P
  p2 : P
  p3 : P
  nativeFaceIndex : Nat
  isActive : Bool

section Block

variable {P R : Type}

/-- Lines 92-98: the reads at the head of iteration `i`. -/
def readTriangle (I : QgsMeshLayerInterpolator P R) (i : Nat) :
    Except BlockError (TriangleLocals P) := do
  let face ← index I.mTriangularMesh.triangles i
  let v1 ← index face 0
  let v2 ← index face 1
  let v3 ← index face 2
  let p1 ← index I.mTriangularMesh.vertices v1
  let p2 ← index I.mTriangularMesh.vertices v2
  let p3 ← index I.mTriangularMesh.vertices v3
  let nativeFaceIndex ← index I.mTriangularMesh.trianglesToNativeFaces i
  let isActive ← active I.mActiveFaceFlagValues nativeFaceIndex
  pure { v1 := v1, v2 := v2, v3 := v3, p1 := p1, p2 := p2, p3 := p3,
         nativeFaceIndex := nativeFaceIndex, isActive := isActive }

/-- Lines 116-137: the value `val` computed for pixel `(j, k)` of triangle `i`. -/
def pixelValue (U : MeshLayerUtils P R) (I : QgsMeshLayerInterpolator P R) (i : Nat)
    (t : TriangleLocals P) (j k : Int) : Except BlockError Dbl :=
  let p := I.mContext.toMapCoordinates k j
  if I.mDataOnVertices then do
    let val1 ← index I.mDatasetValues t.v1
    let val2 ← index I.mDatasetValues t.v2
    let val3 ← index I.mDatasetValues t.v3
    pure (U.interpolateFromVerticesData t.p1 t.p2 t.p3 val1 val2 val3 p)
  else do
    let face ← index I.mTriangularMesh.trianglesToNativeFaces i
    let val ← index I.mDatasetValues face
    pure (interpolateFromFacesData U.covers t.p1 t.p2 t.p3 val p)

/-- Lines 116-143: the body of the inner loop at pixel `(j, k)`. -/
def pixelStep (U : MeshLayerUtils P R) (I : QgsMeshLayerInterpolator P R) (width : Nat)
    (i : Nat) (t : TriangleLocals P) (j k : Int) (out : QgsRasterBlock) :
    Except BlockError QgsRasterBlock :=
  match pixelValue U I i t j k with
  | .error e => .error e
  | .ok val => if !val.isnan then out.writeData width j k val else .ok out

/-- The values `lo, lo + 1, ..., hi` taken by the counter of
`for ( int x = lo; x <= hi; x++ )`. -/
def counterValues (lo hi : Int) : List Int :=
  (List.range (hi + 1 - lo).toNat).map (fun (n : Nat) => lo + (n : Int))

/-- A `for` loop over the values `xs` whose body may fail. -/
def forEach {α σ : Type} (body : α → σ → Except BlockError σ) :
    List α → σ → Except BlockError σ
  | [], s => .ok s
  | x :: xs, s =>
    match body x s with
    | .error e => .error e
    | .ok s' => forEach body xs s'

/-- Lines 114-144: the loop over `k` for one row `j`. -/
def scanLine (U : MeshLayerUtils P R) (I : QgsMeshLayerInterpolator P R) (width : Nat)
    (i : Nat) (t : TriangleLocals P) (lim : ScreenRectangle) (j : Int)
    (out : QgsRasterBlock) : Except BlockError QgsRasterBlock :=
  forEach (fun k => pixelStep U I width i t j k) (counterValues lim.leftLim lim.rightLim) out

/-- Lines 111-145: the loop over `j`. -/
def scanRectangle (U : MeshLayerUtils P R) (I : QgsMeshLayerInterpolator P R) (width : Nat)
    (i : Nat) (t : TriangleLocals P) (lim : ScreenRectangle)
    (out : QgsRasterBlock) : Except BlockError QgsRasterBlock :=
  forEach (fun j => scanLine U I width i t lim j) (counterValues lim.topLim lim.bottomLim) out

/-- Lines 92-145: the body of the triangle loop after the two cancellation
polls. -/
def triangleStep (U : MeshLayerUtils P R) (I : QgsMeshLayerInterpolator P R) (extent : R)
    (width : Nat) (i : Nat) (out : QgsRasterBlock) : Except BlockError QgsRasterBlock :=
  match readTriangle I i with
  | .error e => .error e
  | .ok t =>
    if !t.isActive then .ok out
    else
      let bbox := U.triangleBoundingBox t.p1 t.p2 t.p3
      if !U.intersects extent bbox then .ok out
      else
        scanRectangle U I width i t
          (boundingBoxToScreenRectangle I.mContext I.mOutputSize bbox) out

/-- The test `feedback && feedback->isCanceled()` asked at loop index `i`. -/
def feedbackCanceled (feedback : Option QgsRasterBlockFeedback) (i : Nat) : Bool :=
  match feedback with
  | none => false
  | some f => f.isCanceled i

/-- Lines 84-147: the triangle loop, from index `i` with `n` triangles left. -/
def triangleLoop (U : MeshLayerUtils P R) (I : QgsMeshLayerInterpolator P R) (extent : R)
    (width : Nat) (feedback : Option QgsRasterBlockFeedback) :
    Nat → Nat → QgsRasterBlock → Except BlockError QgsRasterBlock
  | 0, _, out => .ok out
  | n + 1, i, out =>
    if feedbackCanceled feedback i then .ok out
    else if I.mContext.renderingStopped i then .ok out
    else
      match triangleStep U I extent width i out with
      | .error e => .error e
      | .ok out' => triangleLoop U I extent width feedback n (i + 1) out'

/-- The function `QgsMeshLayerInterpolator::block` (lines 69-150); the band
number, which the code ignores, is left out. -/
def block (U : MeshLayerUtils P R) (I : QgsMeshLayerInterpolator P R) (extent : R)
    (width height : Nat) (feedback : Option QgsRasterBlockFeedback) :
    Except BlockError QgsRasterBlock :=
  let outputBlock := QgsRasterBlock.create width height
  if I.mDataOnVertices && I.mDatasetValues.length != I.mTriangularMesh.vertices.length then
    .error .assertFailed
  else
    triangleLoop U I extent width feedback I.mTriangularMesh.triangles.length 0 outputBlock

end Block

/-! ## Operations on the input that the properties speak about -/

namespace QgsMeshLayerInterpolator

variable {P R : Type}

/-- The interpolator with the triangle list and the triangle-to-face map
replaced; vertices, values, flags, context, mode and size are kept. -/
def withTriangles (I : QgsMeshLayerInterpolator P R) (triangles : List (List Nat))
    (trianglesToNativeFaces : List Nat) : QgsMeshLayerInterpolator P R :=
  { I with mTriangularMesh :=
      { vertices := I.mTriangularMesh.vertices, triangles := triangles,
        trianglesToNativeFaces := trianglesToNativeFaces } }

/-- The mesh restricted to its first `k` triangles. -/
def firstTriangles (I : QgsMeshLayerInterpolator P R) (k : Nat) : QgsMeshLayerInterpolator P R :=
  I.withTriangles (I.mTriangularMesh.triangles.take k)
    (I.mTriangularMesh.trianglesToNativeFaces.take k)

/-- The same interpolator in a context whose rendering is never stopped. -/
def neverStopped (I : QgsMeshLayerInterpolator P R) : QgsMeshLayerInterpolator P R :=
  { I with mContext := { I.mContext with renderingStopped := fun _ => false } }

end QgsMeshLayerInterpolator

/-- Two interpolators that differ at most in their triangle list, their
triangle-to-face map and the answers of `renderingStopped`. -/
structure SameStatic {P R : Type} (J I : QgsMeshLayerInterpolator P R) : Prop where
  vertices : J.mTriangularMesh.vertices = I.mTriangularMesh.vertices
  values : J.mDatasetValues = I.mDatasetValues
  flags : J.mActiveFaceFlagValues = I.mActiveFaceFlagValues
  mode : J.mDataOnVertices = I.mDataOnVertices
  size : J.mOutputSize = I.mOutputSize
  toMap : J.mContext.toMapCoordinates = I.mContext.toMapCoordinates
  corners : J.mContext.transformCorners = I.mContext.transformCorners

/-- The preconditions on the input of `block`, for a native mesh of
`nativeFaceCount` faces: every triangle has three vertex indices, each below
the vertex count; the triangle-to-face map has one entry per triangle, each
below the face count; there is one active flag per native face; and the value
array has one value per vertex (vertex mode) or per native face (face mode). -/
structure WellFormed {P R : Type} (I : QgsMeshLayerInterpolator P R) (nativeFaceCount : Nat) :
    Prop where
  triangles : ∀ f ∈ I.mTriangularMesh.triangles,
    f.length = 3 ∧ ∀ v ∈ f, v < I.mTriangularMesh.vertices.length
  nativeFacesLength :
    I.mTriangularMesh.trianglesToNativeFaces.length = I.mTriangularMesh.triangles.length
  nativeFaces : ∀ n ∈ I.mTriangularMesh.trianglesToNativeFaces, n < nativeFaceCount
  flags : I.mActiveFaceFlagValues.length = nativeFaceCount
  values : I.mDatasetValues.length =
    if I.mDataOnVertices then I.mTriangularMesh.vertices.length else nativeFaceCount

/-- The loop reaches triangle `i` and processes it: no poll asked at an index up
to `i` answers that the run is cancelled. -/
def Reached {P R : Type} (I : QgsMeshLayerInterpolator P R)
    (feedback : Option QgsRasterBlockFeedback) (i : Nat) : Prop :=
  ∀ x, x ≤ i → feedbackCanceled feedback x = false ∧ I.mContext.renderingStopped x = false

/-- Triangle `i` is processed at pixel `(j, k)` and yields the value `val`
there, which is not NaN: its reads succeed, its native face is active, its
bounding box intersects the extent, the pixel lies in the rectangle scanned for
it, and the interpolation gives `val`. -/
def YieldsAt {P R : Type} (U : MeshLayerUtils P R) (I : QgsMeshLayerInterpolator P R) (extent : R)
    (i : Nat) (j k : Int) (val : Dbl) : Prop :=
  ∃ t, readTriangle I i = .ok t ∧ t.isActive = true ∧
    U.intersects extent (U.triangleBoundingBox t.p1 t.p2 t.p3) = true ∧
    (boundingBoxToScreenRectangle I.mContext I.mOutputSize
        (U.triangleBoundingBox t.p1 t.p2 t.p3)).topLim ≤ j ∧
    j ≤ (boundingBoxToScreenRectangle I.mContext I.mOutputSize
        (U.triangleBoundingBox t.p1 t.p2 t.p3)).bottomLim ∧
    (boundingBoxToScreenRectangle I.mContext I.mOutputSize
        (U.triangleBoundingBox t.p1 t.p2 t.p3)).leftLim ≤ k ∧
    k ≤ (boundingBoxToScreenRectangle I.mContext I.mOutputSize
        (U.triangleBoundingBox t.p1 t.p2 t.p3)).rightLim ∧
    pixelValue U I i t j k = .ok val ∧ val.isnan = false

/-- Every cell marked as data holds a value that some triangle reached by the
loop yields at that very pixel. -/
def DataFromTriangles {P R : Type} (U : MeshLayerUtils P R) (I : QgsMeshLayerInterpolator P R)
    (extent : R) (width : Nat) (feedback : Option QgsRasterBlockFeedback)
    (s : QgsRasterBlock) : Prop :=
  s.width = width ∧
  ∀ (row col : Nat) (c : Cell), col < width → s.cells[row * width + col]? = some c →
    c.noData = false →
    ∃ i val, Reached I feedback i ∧ YieldsAt U I extent i row col val ∧ c.value = val

/-! ## A concrete setting for evaluation

Map coordinates that are small integers, one map unit per pixel, the left edge
of the pixel grid at `x = 0` and its top edge at `y = yTop`. On such
coordinates the collaborators can be evaluated exactly. -/

namespace Grid

/-- A point with integer map coordinates `(x, y)`. -/
abbrev Pt : Type := Int × Int

/-- A rectangle with integer map coordinates. -/
structure Rect where
  xMin : Int
  yMin : Int
  xMax : Int
  yMax : Int
deriving DecidableEq

/-- The bounding box of three points. -/
def triangleBoundingBox (p1 p2 p3 : Pt) : Rect :=
  { xMin := min p1.1 (min p2.1 p3.1), yMin := min p1.2 (min p2.2 p3.2),
    xMax := max p1.1 (max p2.1 p3.1), yMax := max p1.2 (max p2.2 p3.2) }

/-- Whether two rectangles have a point in common. -/
def intersects (a b : Rect) : Bool :=
  decide (max a.xMin b.xMin ≤ min a.xMax b.xMax) &&
    decide (max a.yMin b.yMin ≤ min a.yMax b.yMax)

/-- Whether the point `pP` has barycentric coordinates, none of them negative,
in the triangle `pA pB pC`; all three are compared after multiplication by the
positive denominator. A triangle without area covers no point. -/
def covers (pA pB pC pP : Pt) : Bool :=
  let dot (u v : Pt) : Int := u.1 * v.1 + u.2 * v.2
  let v0 : Pt := (pC.1 - pA.1, pC.2 - pA.2)
  let v1 : Pt := (pB.1 - pA.1, pB.2 - pA.2)
  let v2 : Pt := (pP.1 - pA.1, pP.2 - pA.2)
  let denom := dot v0 v0 * dot v1 v1 - dot v0 v1 * dot v0 v1
  let lam1 := dot v1 v1 * dot v0 v2 - dot v0 v1 * dot v1 v2
  let lam2 := dot v0 v0 * dot v1 v2 - dot v0 v1 * dot v0 v2
  decide (0 < denom) && decide (0 ≤ lam1) && decide (0 ≤ lam2) && decide (lam1 + lam2 ≤ denom)

/-- Vertex data at a point of the triangle: exact at the three vertices; the
blend at other covered points is not computed here and stands as `val1`. -/
def interpolateFromVerticesData (p1 p2 p3 : Pt) (val1 val2 val3 : Dbl) (pt : Pt) : Dbl :=
  if covers p1 p2 p3 pt then
    if pt = p2 then val2 else if pt = p3 then val3 else val1
  else quiet_NaN

/-- The helpers on integer coordinates. -/
def utils : MeshLayerUtils Pt Rect :=
  { triangleBoundingBox := triangleBoundingBox, intersects := intersects,
    interpolateFromVerticesData := interpolateFromVerticesData, covers := covers }

/-- A render context with one map unit per pixel whose pixel `(k, j)` sits at
the map point `(k, yTop - j)`, and which is never stopped. -/
def context (yTop : Int) : QgsRenderContext Pt Rect :=
  { toMapCoordinates := fun k j => (k, yTop - j)
    transformCorners := fun b =>
      { llX := b.xMin, llY := yTop - b.yMin, urX := b.xMax, urY := yTop - b.yMax }
    renderingStopped := fun _ => false }

/-- The double `5.0`. -/
def five : Dbl := ⟨0x4014000000000000⟩

/-- The double `7.0`. -/
def seven : Dbl := ⟨0x401C000000000000⟩

/-- The extent `[0, 2] × [0, 2]`. -/
def extent : Rect := { xMin := 0, yMin := 0, xMax := 2, yMax := 2 }

/-- One triangle `(0,3) (2,1) (3,3)` of native face `0`, which carries the
value `5.0`; the raster size given to the constructor is `2 × 2`. Of the four
pixel points `(0,2) (1,2) (0,1) (1,1)` only `(1,2)`, pixel row `0` column `1`,
lies in the triangle. -/
def oneTriangle : QgsMeshLayerInterpolator Pt Rect :=
  { mTriangularMesh :=
      { vertices := [(0, 3), (2, 1), (3, 3)], triangles := [[0, 1, 2]],
        trianglesToNativeFaces := [0] }
    mDatasetValues := [five]
    mActiveFaceFlagValues := [true]
    mContext := context 2
    mDataOnVertices := false
    mOutputSize := { width := 2, height := 2 } }

/-- The square `[0, 2] × [0, 2]` cut into the triangles `(0,0) (2,0) (0,2)` of
native face `0` and `(2,0) (2,2) (0,2)` of native face `1`; the faces carry `5.0`
and `7.0`. Of the pixel points `(0,2) (1,2) (0,1) (1,1)` the first triangle
covers `(0,2) (0,1) (1,1)` and the second `(0,2) (1,2) (1,1)`. -/
def square : QgsMeshLayerInterpolator Pt Rect :=
  { mTriangularMesh :=
      { vertices := [(0, 0), (2, 0), (0, 2), (2, 2)], triangles := [[0, 1, 2], [1, 3, 2]],
        trianglesToNativeFaces := [0, 1] }
    mDatasetValues := [five, seven]
    mActiveFaceFlagValues := [true, true]
    mContext := context 2
    mDataOnVertices := false
    mOutputSize := { width := 2, height := 2 } }

/-- The double `9.0`. -/
def nine : Dbl := ⟨0x4022000000000000⟩

/-- The square with a value array that is one value short of its two native
faces. -/
def squareShortValues : QgsMeshLayerInterpolator Pt Rect :=
  { square with mDatasetValues := [five] }

/-- The square in vertex mode with three values for its four vertices. -/
def squareOnVertices : QgsMeshLayerInterpolator Pt Rect :=
  { square with mDataOnVertices := true, mDatasetValues := [five, seven, nine] }

/-- The triangle `(0,0) (2,0) (0,2)` alone, as triangle `0` of native face `1`;
the value array holds `5.0` for face `0` and `7.0` for face `1`. -/
def faceOne : QgsMeshLayerInterpolator Pt Rect :=
  { mTriangularMesh :=
      { vertices := [(0, 0), (2, 0), (0, 2)], triangles := [[0, 1, 2]],
        trianglesToNativeFaces := [1] }
    mDatasetValues := [five, seven]
    mActiveFaceFlagValues := [true, true]
    mContext := context 2
    mDataOnVertices := false
    mOutputSize := { width := 2, height := 2 } }

/-- The mesh `oneTriangle` whose only face carries `+infinity`. -/
def infiniteFace : QgsMeshLayerInterpolator Pt Rect :=
  { oneTriangle with mDatasetValues := [infinity] }

/-- The locals of the loop for the only triangle of `oneTriangle`. -/
def oneTriangleLocals : TriangleLocals Pt :=
  { v1 := 0, v2 := 1, v3 := 2, p1 := (0, 3), p2 := (2, 1), p3 := (3, 3),
    nativeFaceIndex := 0, isActive := true }

/-- The cell that no triangle has written. -/
def unset : Cell := ⟨quiet_NaN, true⟩

/-- A feedback object that reports cancellation from loop index `k` on. -/
def cancelFrom (k : Nat) : QgsRasterBlockFeedback :=
  { isCanceled := fun i => decide (k ≤ i) }

end Grid

/-! ## Basic facts about the embedding -/

section Basics

variable {P R : Type}

theorem index_eq_ok {α : Type} {xs : List α} {i : Nat} {a : α} :
    index xs i = .ok a ↔ xs[i]? = some a := by
  unfold index
  cases h : xs[i]? <;> simp

theorem index_of_lt {α : Type} {xs : List α} {i : Nat} (h : i < xs.length) :
    index xs i = .ok (xs.get ⟨i, h⟩) := by
  rw [index_eq_ok]
  simp [List.getElem?_eq_getElem h]

theorem index_error {α : Type} {xs : List α} {i : Nat} {e : BlockError}
    (h : index xs i = .error e) : e = .indexOutOfRange := by
  unfold index at h
  cases h' : xs[i]? <;> simp [h'] at h
  exact h.symm

theorem bind_eq_ok {α β : Type} {x : Except BlockError α} {f : α → Except BlockError β}
    {b : β} : (x >>= f) = .ok b ↔ ∃ a, x = .ok a ∧ f a = .ok b := by
  cases x with
  | error e => simp [bind, Except.bind]
  | ok a => simp [bind, Except.bind]

theorem bind_error_index {α β : Type} {x : Except BlockError α} {f : α → Except BlockError β}
    (hx : ∀ e, x = .error e → e = .indexOutOfRange)
    (hf : ∀ a e, f a = .error e → e = .indexOutOfRange) :
    ∀ e, (x >>= f) = .error e → e = .indexOutOfRange := by
  intro e h
  cases x with
  | error e1 =>
    simp only [bind, Except.bind, Except.error.injEq] at h
    exact hx e (h ▸ rfl)
  | ok a => exact hf a e h

theorem forEach_invariant {α σ : Type} (body : α → σ → Except BlockError σ) (Inv : σ → Prop)
    (xs : List α)
    (hbody : ∀ x ∈ xs, ∀ s s', Inv s → body x s = .ok s' → Inv s')
    (s s' : σ) (hs : Inv s) (h : forEach body xs s = .ok s') : Inv s' := by
  induction xs generalizing s with
  | nil =>
    simp only [forEach, Except.ok.injEq] at h
    exact h ▸ hs
  | cons x xs ih =>
    simp only [forEach] at h
    cases hx : body x s with
    | error e => simp [hx] at h
    | ok s1 =>
      simp only [hx] at h
      exact ih (fun y hy => hbody y (List.mem_cons_of_mem _ hy)) s1
        (hbody x (List.mem_cons_self _ _) s s1 hs hx) h

theorem forEach_error {α σ : Type} (body : α → σ → Except BlockError σ) (Q : BlockError → Prop)
    (xs : List α)
    (hbody : ∀ x ∈ xs, ∀ s e, body x s = .error e → Q e)
    (s : σ) (e : BlockError) (h : forEach body xs s = .error e) : Q e := by
  induction xs generalizing s with
  | nil => simp [forEach] at h
  | cons x xs ih =>
    simp only [forEach] at h
    cases hx : body x s with
    | error e1 =>
      simp only [hx, Except.error.injEq] at h
      exact h ▸ hbody x (List.mem_cons_self _ _) s e1 hx
    | ok s1 =>
      simp only [hx] at h
      exact ih (fun y hy => hbody y (List.mem_cons_of_mem _ hy)) s1 h

theorem forEach_congr {α σ : Type} (body body' : α → σ → Except BlockError σ) (xs : List α)
    (h : ∀ x ∈ xs, ∀ s, body x s = body' x s) (s : σ) :
    forEach body xs s = forEach body' xs s := by
  induction xs generalizing s with
  | nil => rfl
  | cons x xs ih =>
    simp only [forEach]
    rw [h x (List.mem_cons_self _ _) s]
    cases body' x s with
    | error e => rfl
    | ok s1 => exact ih (fun y hy => h y (List.mem_cons_of_mem _ hy)) s1

end Basics

/-! ## Runs that agree -/

section Agreement

variable {P R : Type}

theorem SameStatic.withTriangles (I : QgsMeshLayerInterpolator P R) (ts : List (List Nat))
    (ns : List Nat) : SameStatic (I.withTriangles ts ns) I :=
  ⟨rfl, rfl, rfl, rfl, rfl, rfl, rfl⟩

theorem SameStatic.neverStopped (I : QgsMeshLayerInterpolator P R) :
    SameStatic I.neverStopped I :=
  ⟨rfl, rfl, rfl, rfl, rfl, rfl, rfl⟩

theorem SameStatic.trans {K J I : QgsMeshLayerInterpolator P R} (h1 : SameStatic K J)
    (h2 : SameStatic J I) : SameStatic K I :=
  ⟨h1.vertices.trans h2.vertices, h1.values.trans h2.values, h1.flags.trans h2.flags,
    h1.mode.trans h2.mode, h1.size.trans h2.size, h1.toMap.trans h2.toMap,
    h1.corners.trans h2.corners⟩

theorem readTriangle_congr {J I : QgsMeshLayerInterpolator P R} (hs : SameStatic J I)
    {x y : Nat}
    (ht : J.mTriangularMesh.triangles[x]? = I.mTriangularMesh.triangles[y]?)
    (hn : J.mTriangularMesh.trianglesToNativeFaces[x]? =
      I.mTriangularMesh.trianglesToNativeFaces[y]?) :
    readTriangle J x = readTriangle I y := by
  simp only [readTriangle, active, index, hs.vertices, hs.flags, ht, hn]

theorem pixelValue_congr (U : MeshLayerUtils P R) {J I : QgsMeshLayerInterpolator P R}
    (hs : SameStatic J I) {x y : Nat}
    (hn : J.mTriangularMesh.trianglesToNativeFaces[x]? =
      I.mTriangularMesh.trianglesToNativeFaces[y]?)
    (t : TriangleLocals P) (j k : Int) :
    pixelValue U J x t j k = pixelValue U I y t j k := by
  simp only [pixelValue, index, hs.values, hs.mode, hs.toMap, hn]

theorem scanRectangle_congr (U : MeshLayerUtils P R) {J I : QgsMeshLayerInterpolator P R}
    (hs : SameStatic J I) {x y : Nat}
    (hn : J.mTriangularMesh.trianglesToNativeFaces[x]? =
      I.mTriangularMesh.trianglesToNativeFaces[y]?)
    (width : Nat) (t : TriangleLocals P) (lim : ScreenRectangle) (out : QgsRasterBlock) :
    scanRectangle U J width x t lim out = scanRectangle U I width y t lim out := by
  unfold scanRectangle
  apply forEach_congr
  intro j _ s
  unfold scanLine
  apply forEach_congr
  intro k _ s'
  unfold pixelStep
  rw [pixelValue_congr U hs hn]

theorem triangleStep_congr (U : MeshLayerUtils P R) {J I : QgsMeshLayerInterpolator P R}
    (hs : SameStatic J I) {x y : Nat}
    (ht : J.mTriangularMesh.triangles[x]? = I.mTriangularMesh.triangles[y]?)
    (hn : J.mTriangularMesh.trianglesToNativeFaces[x]? =
      I.mTriangularMesh.trianglesToNativeFaces[y]?)
    (extent : R) (width : Nat) (out : QgsRasterBlock) :
    triangleStep U J extent width x out = triangleStep U I extent width y out := by
  unfold triangleStep
  rw [readTriangle_congr hs ht hn]
  cases readTriangle I y with
  | error e => rfl
  | ok t =>
    simp only [boundingBoxToScreenRectangle, hs.size, hs.corners]
    rw [scanRectangle_congr U hs hn]

/-- A run whose polls first answer "cancelled" at index `k` does what an
unpolled run over the first `k` triangles does. -/
theorem triangleLoop_cancelled (U : MeshLayerUtils P R) (I J : QgsMeshLayerInterpolator P R)
    (extent : R) (width : Nat) (feedback : Option QgsRasterBlockFeedback) (k : Nat)
    (hquiet : ∀ i, i < k →
      feedbackCanceled feedback i = false ∧ I.mContext.renderingStopped i = false)
    (hat : feedbackCanceled feedback k = true ∨ I.mContext.renderingStopped k = true)
    (hJ : ∀ i, J.mContext.renderingStopped i = false)
    (hstep : ∀ i, i < k → ∀ out,
      triangleStep U J extent width i out = triangleStep U I extent width i out)
    (n i : Nat) (out : QgsRasterBlock) (hik : i ≤ k) (hkn : k < i + n) :
    triangleLoop U I extent width feedback n i out =
      triangleLoop U J extent width none (k - i) i out := by
  induction n generalizing i out with
  | zero => omega
  | succ n ih =>
    rcases Nat.eq_or_lt_of_le hik with heq | hlt
    · subst heq
      simp only [Nat.sub_self, triangleLoop]
      rcases hat with h | h
      · simp [h]
      · cases hf : feedbackCanceled feedback i <;> simp [h]
    · have hsub : k - i = (k - (i + 1)) + 1 := by omega
      rw [hsub]
      have hnone : feedbackCanceled none i = false := rfl
      simp only [triangleLoop, (hquiet i hlt).1, (hquiet i hlt).2, hJ i, hnone,
        hstep i hlt out]
      cases triangleStep U I extent width i out with
      | error e => simp
      | ok out1 =>
        simp only [Bool.false_eq_true, if_false]
        exact ih (i + 1) out1 hlt (by omega)

end Agreement

/-! ## The unpolled loop as a loop over the triangles themselves -/

section Entries

variable {P R : Type}

theorem readTriangle_ok {I : QgsMeshLayerInterpolator P R} {i : Nat} {t : TriangleLocals P}
    (h : readTriangle I i = .ok t) :
    ∃ face, I.mTriangularMesh.triangles[i]? = some face ∧
      face[0]? = some t.v1 ∧ face[1]? = some t.v2 ∧ face[2]? = some t.v3 ∧
      I.mTriangularMesh.vertices[t.v1]? = some t.p1 ∧
      I.mTriangularMesh.vertices[t.v2]? = some t.p2 ∧
      I.mTriangularMesh.vertices[t.v3]? = some t.p3 ∧
      I.mTriangularMesh.trianglesToNativeFaces[i]? = some t.nativeFaceIndex ∧
      I.mActiveFaceFlagValues[t.nativeFaceIndex]? = some t.isActive := by
  simp only [readTriangle, active, bind_eq_ok, index_eq_ok, pure, Except.pure] at h
  obtain ⟨face, hf, v1, h1, v2, h2, v3, h3, p1, hp1, p2, hp2, p3, hp3, nf, hnf, a, ha, ht⟩ := h
  simp only [Except.ok.injEq] at ht
  subst ht
  exact ⟨face, hf, h1, h2, h3, hp1, hp2, hp3, hnf, ha⟩

theorem readTriangle_error {I : QgsMeshLayerInterpolator P R} {i : Nat} :
    ∀ e, readTriangle I i = .error e → e = .indexOutOfRange := by
  unfold readTriangle active
  repeat (refine bind_error_index (fun e h => index_error h) ?_; intro _)
  intro e h
  simp [pure, Except.pure] at h

theorem pixelValue_error {U : MeshLayerUtils P R} {I : QgsMeshLayerInterpolator P R} {i : Nat}
    {t : TriangleLocals P} {j k : Int} :
    ∀ e, pixelValue U I i t j k = .error e → e = .indexOutOfRange := by
  unfold pixelValue
  simp only
  split
  · repeat (refine bind_error_index (fun e h => index_error h) ?_; intro _)
    intro e h
    simp [pure, Except.pure] at h
  · repeat (refine bind_error_index (fun e h => index_error h) ?_; intro _)
    intro e h
    simp [pure, Except.pure] at h

end Entries

/-! ## Steps that leave the raster as it is -/

section Frame

variable {P R : Type}

theorem pixelStep_ok {U : MeshLayerUtils P R} {I : QgsMeshLayerInterpolator P R} {width i : Nat}
    {t : TriangleLocals P} {j k : Int} {out out' : QgsRasterBlock}
    (h : pixelStep U I width i t j k out = .ok out') :
    ∃ val, pixelValue U I i t j k = .ok val ∧
      ((val.isnan = true ∧ out' = out) ∨
        (val.isnan = false ∧ out.writeData width j k val = .ok out')) := by
  unfold pixelStep at h
  cases hv : pixelValue U I i t j k with
  | error e => simp [hv] at h
  | ok val =>
    simp only [hv] at h
    refine ⟨val, rfl, ?_⟩
    cases hn : val.isnan with
    | true =>
      simp only [hn, Bool.not_true, Bool.false_eq_true, if_false, Except.ok.injEq] at h
      exact Or.inl ⟨rfl, h.symm⟩
    | false =>
      simp only [hn, Bool.not_false, if_true] at h
      exact Or.inr ⟨rfl, h⟩

theorem mem_counterValues {lo hi x : Int} : x ∈ counterValues lo hi ↔ lo ≤ x ∧ x ≤ hi := by
  simp only [counterValues, List.mem_map, List.mem_range]
  constructor
  · rintro ⟨n, hn, rfl⟩
    omega
  · rintro ⟨h1, h2⟩
    refine ⟨(x - lo).toNat, ?_, ?_⟩ <;> omega

theorem scanRectangle_invariant (U : MeshLayerUtils P R) (I : QgsMeshLayerInterpolator P R)
    (width i : Nat) (t : TriangleLocals P) (lim : ScreenRectangle) (Inv : QgsRasterBlock → Prop)
    (hpix : ∀ j k, lim.topLim ≤ j → j ≤ lim.bottomLim → lim.leftLim ≤ k → k ≤ lim.rightLim →
      ∀ s s', Inv s → pixelStep U I width i t j k s = .ok s' → Inv s')
    (out out' : QgsRasterBlock) (hout : Inv out)
    (h : scanRectangle U I width i t lim out = .ok out') : Inv out' := by
  have hmem : ∀ lo hi x, x ∈ counterValues lo hi → lo ≤ x ∧ x ≤ hi :=
    fun lo hi x hx => mem_counterValues.mp hx
  unfold scanRectangle at h
  refine forEach_invariant _ Inv _ ?_ out out' hout h
  intro j hj s s' hs hline
  unfold scanLine at hline
  refine forEach_invariant _ Inv _ ?_ s s' hs hline
  intro k hk s1 s2 hs1 hstep
  exact hpix j k (hmem _ _ j hj).1 (hmem _ _ j hj).2 (hmem _ _ k hk).1 (hmem _ _ k hk).2
    s1 s2 hs1 hstep

/-- What a step of the triangle loop that returns has done. -/
theorem triangleStep_ok {U : MeshLayerUtils P R} {I : QgsMeshLayerInterpolator P R} {extent : R}
    {width i : Nat} {out out' : QgsRasterBlock}
    (h : triangleStep U I extent width i out = .ok out') :
    ∃ t, readTriangle I i = .ok t ∧
      ((t.isActive = false ∧ out' = out) ∨
       (t.isActive = true ∧
          U.intersects extent (U.triangleBoundingBox t.p1 t.p2 t.p3) = false ∧ out' = out) ∨
       (t.isActive = true ∧
          U.intersects extent (U.triangleBoundingBox t.p1 t.p2 t.p3) = true ∧
          scanRectangle U I width i t
            (boundingBoxToScreenRectangle I.mContext I.mOutputSize
              (U.triangleBoundingBox t.p1 t.p2 t.p3)) out = .ok out')) := by
  unfold triangleStep at h
  cases ht : readTriangle I i with
  | error e => simp [ht] at h
  | ok t =>
    simp only [ht] at h
    refine ⟨t, rfl, ?_⟩
    cases ha : t.isActive with
    | false =>
      simp only [ha, Bool.not_false, if_true, Except.ok.injEq] at h
      exact Or.inl ⟨rfl, h.symm⟩
    | true =>
      simp only [ha, Bool.not_true, Bool.false_eq_true, if_false] at h
      cases hx : U.intersects extent (U.triangleBoundingBox t.p1 t.p2 t.p3) with
      | false =>
        simp only [hx, Bool.not_false, if_true, Except.ok.injEq] at h
        exact Or.inr (Or.inl ⟨rfl, rfl, h.symm⟩)
      | true =>
        simp only [hx, Bool.not_true, Bool.false_eq_true, if_false] at h
        exact Or.inr (Or.inr ⟨rfl, rfl, h⟩)

end Frame

/-! ## Invariants of the loops -/

section Invariants

variable {P R : Type}

theorem writeData_ok {b b' : QgsRasterBlock} {width : Nat} {j k : Int} {val : Dbl}
    (h : b.writeData width j k val = .ok b') :
    0 ≤ j * (width : Int) + k ∧ j * (width : Int) + k < (b.cells.length : Int) ∧
      b'.cells = b.cells.set (j * (width : Int) + k).toNat ⟨val, false⟩ ∧
      b'.width = b.width ∧ b'.height = b.height := by
  unfold QgsRasterBlock.writeData at h
  simp only at h
  split at h
  · rename_i hc
    simp only [Except.ok.injEq] at h
    subst h
    exact ⟨hc.1, hc.2, rfl, rfl, rfl⟩
  · simp at h

theorem writeData_error {b : QgsRasterBlock} {width : Nat} {j k : Int} {val : Dbl}
    {e : BlockError} (h : b.writeData width j k val = .error e) : e = .bufferOverrun := by
  unfold QgsRasterBlock.writeData at h
  simp only at h
  split at h
  · simp at h
  · simp only [Except.error.injEq] at h
    exact h.symm

theorem triangleLoop_invariant (U : MeshLayerUtils P R) (I : QgsMeshLayerInterpolator P R)
    (extent : R) (width : Nat) (feedback : Option QgsRasterBlockFeedback)
    (Inv : QgsRasterBlock → Prop)
    (hstep : ∀ i s s', Inv s → triangleStep U I extent width i s = .ok s' → Inv s')
    (n i : Nat) (out r : QgsRasterBlock) (hout : Inv out)
    (h : triangleLoop U I extent width feedback n i out = .ok r) : Inv r := by
  induction n generalizing i out with
  | zero =>
    simp only [triangleLoop, Except.ok.injEq] at h
    exact h ▸ hout
  | succ n ih =>
    simp only [triangleLoop] at h
    split at h
    · simp only [Except.ok.injEq] at h
      exact h ▸ hout
    · split at h
      · simp only [Except.ok.injEq] at h
        exact h ▸ hout
      · cases hx : triangleStep U I extent width i out with
        | error e => simp [hx] at h
        | ok out1 =>
          simp only [hx] at h
          exact ih (i + 1) out1 (hstep i out out1 hout hx) h

/-- Whatever holds of the fresh block and is kept by every step of the triangle
loop holds of the raster that `block` returns. -/
theorem block_invariant (U : MeshLayerUtils P R) (I : QgsMeshLayerInterpolator P R)
    (extent : R) (width height : Nat) (feedback : Option QgsRasterBlockFeedback)
    (Inv : QgsRasterBlock → Prop) (h0 : Inv (QgsRasterBlock.create width height))
    (hstep : ∀ i s s', Inv s → triangleStep U I extent width i s = .ok s' → Inv s')
    (r : QgsRasterBlock) (h : block U I extent width height feedback = .ok r) : Inv r := by
  unfold block at h
  simp only at h
  split at h
  · simp at h
  · exact triangleLoop_invariant U I extent width feedback Inv hstep _ 0 _ r h0 h

theorem quiet_NaN_isnan : quiet_NaN.isnan = true := by decide

/-- In face mode the value computed for a pixel is the value of the native face
of the triangle, or NaN. -/
theorem pixelValue_onFaces {U : MeshLayerUtils P R} {I : QgsMeshLayerInterpolator P R}
    {i : Nat} {t : TriangleLocals P} {j k : Int} {val : Dbl}
    (hmode : I.mDataOnVertices = false) (h : pixelValue U I i t j k = .ok val) :
    ∃ face v, I.mTriangularMesh.trianglesToNativeFaces[i]? = some face ∧
      I.mDatasetValues[face]? = some v ∧ (val = v ∨ val.isnan = true) := by
  simp only [pixelValue, hmode, Bool.false_eq_true, if_false, bind_eq_ok, index_eq_ok, pure,
    Except.pure, Except.ok.injEq] at h
  obtain ⟨face, hf, v, hv, hval⟩ := h
  refine ⟨face, v, hf, hv, ?_⟩
  unfold interpolateFromFacesData at hval
  split at hval
  · exact Or.inl hval.symm
  · exact Or.inr (hval ▸ quiet_NaN_isnan)

theorem triangleLoop_error (U : MeshLayerUtils P R) (I : QgsMeshLayerInterpolator P R)
    (extent : R) (width : Nat) (feedback : Option QgsRasterBlockFeedback)
    (Q : BlockError → Prop)
    (hstep : ∀ i, i < I.mTriangularMesh.triangles.length → ∀ s e,
      triangleStep U I extent width i s = .error e → Q e)
    (n i : Nat) (out : QgsRasterBlock) (e : BlockError)
    (hn : i + n ≤ I.mTriangularMesh.triangles.length)
    (h : triangleLoop U I extent width feedback n i out = .error e) : Q e := by
  induction n generalizing i out with
  | zero => simp [triangleLoop] at h
  | succ n ih =>
    simp only [triangleLoop] at h
    split at h
    · simp at h
    · split at h
      · simp at h
      · cases hx : triangleStep U I extent width i out with
        | error e1 =>
          simp only [hx, Except.error.injEq] at h
          exact h ▸ hstep i (by omega) out e1 hx
        | ok out1 =>
          simp only [hx] at h
          exact ih (i + 1) out1 (by omega) h

/-- Under the preconditions every read at the head of an iteration is inside
its vector. -/
theorem readTriangle_of_wellFormed {I : QgsMeshLayerInterpolator P R} {nativeFaceCount : Nat}
    (hwf : WellFormed I nativeFaceCount) {i : Nat}
    (hi : i < I.mTriangularMesh.triangles.length) :
    ∃ t, readTriangle I i = .ok t ∧
      t.v1 < I.mTriangularMesh.vertices.length ∧ t.v2 < I.mTriangularMesh.vertices.length ∧
      t.v3 < I.mTriangularMesh.vertices.length ∧
      I.mTriangularMesh.trianglesToNativeFaces[i]? = some t.nativeFaceIndex ∧
      t.nativeFaceIndex < nativeFaceCount := by
  have hmem : I.mTriangularMesh.triangles.get ⟨i, hi⟩ ∈ I.mTriangularMesh.triangles :=
    List.get_mem _ _ _
  have hface : index I.mTriangularMesh.triangles i =
      .ok (I.mTriangularMesh.triangles.get ⟨i, hi⟩) := index_of_lt hi
  obtain ⟨hlen, hvs⟩ := hwf.triangles _ hmem
  generalize I.mTriangularMesh.triangles.get ⟨i, hi⟩ = face at hface hlen hvs
  match face, hlen with
  | [a, b, c], _ =>
    have ha : a < I.mTriangularMesh.vertices.length := hvs a (by simp)
    have hb : b < I.mTriangularMesh.vertices.length := hvs b (by simp)
    have hc : c < I.mTriangularMesh.vertices.length := hvs c (by simp)
    have hi' : i < I.mTriangularMesh.trianglesToNativeFaces.length := by
      rw [hwf.nativeFacesLength]; exact hi
    have hn : I.mTriangularMesh.trianglesToNativeFaces.get ⟨i, hi'⟩ < nativeFaceCount :=
      hwf.nativeFaces _ (List.get_mem _ _ _)
    have hn' : I.mTriangularMesh.trianglesToNativeFaces.get ⟨i, hi'⟩ <
        I.mActiveFaceFlagValues.length := by rw [hwf.flags]; exact hn
    have h0 : index [a, b, c] 0 = .ok a := rfl
    have h1 : index [a, b, c] 1 = .ok b := rfl
    have h2 : index [a, b, c] 2 = .ok c := rfl
    refine ⟨{ v1 := a, v2 := b, v3 := c,
              p1 := I.mTriangularMesh.vertices.get ⟨a, ha⟩,
              p2 := I.mTriangularMesh.vertices.get ⟨b, hb⟩,
              p3 := I.mTriangularMesh.vertices.get ⟨c, hc⟩,
              nativeFaceIndex := I.mTriangularMesh.trianglesToNativeFaces.get ⟨i, hi'⟩,
              isActive := I.mActiveFaceFlagValues.get ⟨_, hn'⟩ }, ?_, ha, hb, hc, ?_, hn⟩
    · simp only [readTriangle, active, hface, h0, h1, h2, index_of_lt ha, index_of_lt hb,
        index_of_lt hc, index_of_lt hi', index_of_lt hn', bind, Except.bind, pure, Except.pure]
    · exact List.getElem?_eq_getElem hi'

/-- Under the preconditions every read of the value array is inside it. -/
theorem pixelValue_of_wellFormed (U : MeshLayerUtils P R) {I : QgsMeshLayerInterpolator P R}
    {nativeFaceCount : Nat} (hwf : WellFormed I nativeFaceCount) {i : Nat}
    {t : TriangleLocals P}
    (h1 : t.v1 < I.mTriangularMesh.vertices.length)
    (h2 : t.v2 < I.mTriangularMesh.vertices.length)
    (h3 : t.v3 < I.mTriangularMesh.vertices.length)
    (hn : I.mTriangularMesh.trianglesToNativeFaces[i]? = some t.nativeFaceIndex)
    (hlt : t.nativeFaceIndex < nativeFaceCount) (j k : Int) :
    ∃ val, pixelValue U I i t j k = .ok val := by
  have hvalues := hwf.values
  cases hmode : I.mDataOnVertices with
  | true =>
    simp only [hmode, if_true] at hvalues
    rw [← hvalues] at h1 h2 h3
    refine ⟨U.interpolateFromVerticesData t.p1 t.p2 t.p3 (I.mDatasetValues.get ⟨t.v1, h1⟩)
      (I.mDatasetValues.get ⟨t.v2, h2⟩) (I.mDatasetValues.get ⟨t.v3, h3⟩)
      (I.mContext.toMapCoordinates k j), ?_⟩
    simp only [pixelValue, hmode, if_true, index_of_lt h1, index_of_lt h2,
      index_of_lt h3, bind, Except.bind, pure, Except.pure]
  | false =>
    simp only [hmode, Bool.false_eq_true, if_false] at hvalues
    rw [← hvalues] at hlt
    have hface : index I.mTriangularMesh.trianglesToNativeFaces i = .ok t.nativeFaceIndex :=
      index_eq_ok.2 hn
    refine ⟨interpolateFromFacesData U.covers t.p1 t.p2 t.p3
      (I.mDatasetValues.get ⟨t.nativeFaceIndex, hlt⟩) (I.mContext.toMapCoordinates k j), ?_⟩
    simp only [pixelValue, hmode, Bool.false_eq_true, if_false, hface,
      index_of_lt hlt, bind, Except.bind, pure, Except.pure]

theorem pixelStep_error {U : MeshLayerUtils P R} {I : QgsMeshLayerInterpolator P R}
    {width i : Nat} {t : TriangleLocals P} {j k : Int} {out : QgsRasterBlock} {e : BlockError}
    (hval : ∃ val, pixelValue U I i t j k = .ok val)
    (h : pixelStep U I width i t j k out = .error e) : e = .bufferOverrun := by
  obtain ⟨val, hval⟩ := hval
  simp only [pixelStep, hval] at h
  split at h
  · exact writeData_error h
  · simp at h

/-- Under the preconditions a step of the triangle loop fails only by a write
outside the buffer. -/
theorem triangleStep_error_of_wellFormed (U : MeshLayerUtils P R)
    {I : QgsMeshLayerInterpolator P R} {nativeFaceCount : Nat}
    (hwf : WellFormed I nativeFaceCount) (extent : R) (width : Nat) {i : Nat}
    (hi : i < I.mTriangularMesh.triangles.length) (out : QgsRasterBlock) (e : BlockError)
    (h : triangleStep U I extent width i out = .error e) : e = .bufferOverrun := by
  obtain ⟨t, ht, h1, h2, h3, hn, hlt⟩ := readTriangle_of_wellFormed hwf hi
  simp only [triangleStep, ht] at h
  split at h
  · simp at h
  · split at h
    · simp at h
    · unfold scanRectangle at h
      refine forEach_error _ (fun e => e = .bufferOverrun) _ ?_ out e h
      intro j _ s e1 hline
      unfold scanLine at hline
      refine forEach_error _ (fun e => e = .bufferOverrun) _ ?_ s e1 hline
      intro k _ s1 e2 hpix
      exact pixelStep_error (pixelValue_of_wellFormed U hwf h1 h2 h3 hn hlt j k) hpix

/-- In the raster that `block` returns the no-data mark of a pixel agrees with
the NaN sentinel: a pixel is marked no-data exactly when its stored value is
NaN. -/
theorem block_isNoData_iff_isnan (U : MeshLayerUtils P R) (I : QgsMeshLayerInterpolator P R)
    (extent : R) (width height : Nat) (feedback : Option QgsRasterBlockFeedback)
    (r : QgsRasterBlock) (h : block U I extent width height feedback = .ok r)
    (row col : Nat) : r.isNoData row col = (r.value row col).isnan := by
  have hinv : ∀ c ∈ r.cells, c.noData = c.value.isnan := by
    refine block_invariant U I extent width height feedback
      (fun s => ∀ c ∈ s.cells, c.noData = c.value.isnan) ?_ ?_ r h
    · intro c hc
      simp only [QgsRasterBlock.create, List.mem_replicate] at hc
      rw [hc.2]
      decide
    · intro i s s' hs hstep
      obtain ⟨t, -, hcase | hcase | hcase⟩ := triangleStep_ok hstep
      · rw [hcase.2]; exact hs
      · rw [hcase.2.2]; exact hs
      · refine scanRectangle_invariant U I width i t _
          (fun s => ∀ c ∈ s.cells, c.noData = c.value.isnan) ?_ s s' hs hcase.2.2
        intro j k _ _ _ _ s1 s2 hs1 hpix c hc
        obtain ⟨val, -, hn | hn⟩ := pixelStep_ok hpix
        · rw [hn.2] at hc
          exact hs1 c hc
        · obtain ⟨-, -, hcells, -, -⟩ := writeData_ok hn.2
          rw [hcells] at hc
          rcases List.mem_or_eq_of_mem_set hc with hc | hc
          · exact hs1 c hc
          · rw [hc]
            exact hn.1.symm
  unfold QgsRasterBlock.isNoData QgsRasterBlock.value
  cases hc : r.cells[row * r.width + col]? with
  | none => exact quiet_NaN_isnan.symm
  | some c => exact hinv c (List.getElem?_mem hc)

end Invariants

/-! ## Single cells of the raster

When the raster is at least as wide as the size given to the constructor, a
write for pixel `(j, k)` lands on the cell of row `j` and column `k`. -/

section Cells

variable {P R : Type}

theorem flat_index_unique {w : Nat} {j k : Int} {row col : Nat} (hj : 0 ≤ j) (hk0 : 0 ≤ k)
    (hk : k < w) (hcol : col < w)
    (h : (j * (w : Int) + k).toNat = row * w + col) : j = row ∧ k = col := by
  have hw : (0 : Int) < w := by omega
  have hjw : 0 ≤ j * (w : Int) := mul_nonneg hj hw.le
  have h1 : j * (w : Int) + k = (row : Int) * (w : Int) + (col : Int) := by
    have : ((j * (w : Int) + k).toNat : Int) = ((row * w + col : Nat) : Int) := by rw [h]
    rw [Int.toNat_of_nonneg (by omega)] at this
    push_cast at this
    exact this
  have hkc : k = col := by
    have e1 : (j * (w : Int) + k) % w = k := by
      rw [add_comm, Int.add_mul_emod_self]
      exact Int.emod_eq_of_lt hk0 hk
    have e2 : ((row : Int) * (w : Int) + (col : Int)) % w = col := by
      rw [add_comm, Int.add_mul_emod_self]
      exact Int.emod_eq_of_lt (by omega) (by omega)
    rw [← e1, h1, e2]
  refine ⟨?_, hkc⟩
  subst hkc
  have : j * (w : Int) = (row : Int) * (w : Int) := by omega
  exact mul_right_cancel₀ (by omega) this

theorem flat_index_lt {w h : Nat} {j k : Int} (hj0 : 0 ≤ j) (hj : j ≤ (h : Int) - 1)
    (hk0 : 0 ≤ k) (hk : k ≤ (w : Int) - 1) :
    0 ≤ j * (w : Int) + k ∧ j * (w : Int) + k < ((w * h : Nat) : Int) := by
  have hw : (0 : Int) ≤ w := by omega
  have h1 : j * (w : Int) ≤ ((h : Int) - 1) * w := mul_le_mul_of_nonneg_right hj hw
  have h2 : 0 ≤ j * (w : Int) := mul_nonneg hj0 hw
  push_cast
  constructor
  · omega
  · nlinarith

/-- The rectangle scanned for a triangle is clipped to the size handed to
`boundingBoxToScreenRectangle`. -/
theorem screenRectangle_bounds (ctx : QgsRenderContext P R) (size : QSize) (bbox : R) :
    0 ≤ (boundingBoxToScreenRectangle ctx size bbox).topLim ∧
    0 ≤ (boundingBoxToScreenRectangle ctx size bbox).leftLim ∧
    (boundingBoxToScreenRectangle ctx size bbox).rightLim ≤ (size.width : Int) - 1 ∧
    (boundingBoxToScreenRectangle ctx size bbox).bottomLim ≤ (size.height : Int) - 1 := by
  simp only [boundingBoxToScreenRectangle]
  exact ⟨le_max_right _ _, le_max_right _ _, min_le_right _ _, min_le_right _ _⟩

/-- The step at a pixel other than `(row, col)` leaves the cell of `(row, col)`
as it is. -/
theorem pixelStep_cell_other {U : MeshLayerUtils P R} {I : QgsMeshLayerInterpolator P R}
    {width i : Nat} {t : TriangleLocals P} {j k : Int} {s s' : QgsRasterBlock}
    (hj : 0 ≤ j) (hk0 : 0 ≤ k) (hk : k < width)
    (h : pixelStep U I width i t j k s = .ok s') (row col : Nat) (hcol : col < width)
    (hne : ¬(j = row ∧ k = col)) :
    s'.cells[row * width + col]? = s.cells[row * width + col]? := by
  obtain ⟨val, -, hc | hc⟩ := pixelStep_ok h
  · rw [hc.2]
  · obtain ⟨-, -, hcells, -, -⟩ := writeData_ok hc.2
    rw [hcells]
    apply List.getElem?_set_ne
    intro heq
    exact hne (flat_index_unique hj hk0 hk hcol heq)

/-- The step at pixel `(row, col)`: either the value is NaN and nothing changes,
or the cell of `(row, col)` receives the value and is marked as data. -/
theorem pixelStep_cell_same {U : MeshLayerUtils P R} {I : QgsMeshLayerInterpolator P R}
    {width i : Nat} {t : TriangleLocals P} {s s' : QgsRasterBlock} {row col : Nat}
    (h : pixelStep U I width i t row col s = .ok s') :
    ∃ val, pixelValue U I i t row col = .ok val ∧
      ((val.isnan = true ∧ s' = s) ∨
        (val.isnan = false ∧ s'.cells[row * width + col]? = some ⟨val, false⟩)) := by
  obtain ⟨val, hval, hc | hc⟩ := pixelStep_ok h
  · exact ⟨val, hval, Or.inl hc⟩
  · refine ⟨val, hval, Or.inr ⟨hc.1, ?_⟩⟩
    obtain ⟨h0, hlt, hcells, -, -⟩ := writeData_ok hc.2
    have hidx : ((row : Int) * (width : Int) + (col : Int)).toNat = row * width + col := by
      have : (row : Int) * (width : Int) + (col : Int) = ((row * width + col : Nat) : Int) := by
        push_cast; rfl
      rw [this, Int.toNat_ofNat]
    rw [hcells, hidx]
    apply List.getElem?_set_eq_of_lt
    have : (((row * width + col : Nat)) : Int) < (s.cells.length : Int) := by
      push_cast; exact hlt
    exact_mod_cast this

theorem triangleLoop_invariant_from (U : MeshLayerUtils P R) (I : QgsMeshLayerInterpolator P R)
    (extent : R) (width : Nat) (feedback : Option QgsRasterBlockFeedback)
    (Inv : QgsRasterBlock → Prop) (n i0 : Nat)
    (hstep : ∀ i, i0 ≤ i →
      (∀ x, i0 ≤ x → x ≤ i →
        feedbackCanceled feedback x = false ∧ I.mContext.renderingStopped x = false) →
      ∀ s s', Inv s → triangleStep U I extent width i s = .ok s' → Inv s')
    (out r : QgsRasterBlock) (hout : Inv out)
    (h : triangleLoop U I extent width feedback n i0 out = .ok r) : Inv r := by
  induction n generalizing i0 out with
  | zero =>
    simp only [triangleLoop, Except.ok.injEq] at h
    exact h ▸ hout
  | succ n ih =>
    simp only [triangleLoop] at h
    split at h
    · simp only [Except.ok.injEq] at h
      exact h ▸ hout
    · rename_i hfb
      split at h
      · simp only [Except.ok.injEq] at h
        exact h ▸ hout
      · rename_i hrs
        have hq : feedbackCanceled feedback i0 = false ∧
            I.mContext.renderingStopped i0 = false := by
          constructor
          · simpa using hfb
          · simpa using hrs
        cases hx : triangleStep U I extent width i0 out with
        | error e => simp [hx] at h
        | ok out1 =>
          simp only [hx] at h
          have h1 : Inv out1 := by
            refine hstep i0 (Nat.le_refl _) ?_ out out1 hout hx
            intro x hx1 hx2
            have : x = i0 := by omega
            exact this ▸ hq
          refine ih (i0 + 1) ?_ out1 h1 h
          intro i hi hpolls s s' hs hst
          refine hstep i (by omega) ?_ s s' hs hst
          intro x hx1 hx2
          rcases Nat.eq_or_lt_of_le hx1 with heq | hlt
          · exact heq ▸ hq
          · exact hpolls x hlt hx2

/-- Whatever holds of the fresh block and is kept by every step that the loop
reaches holds of the raster that `block` returns. -/
theorem block_invariant_reached (U : MeshLayerUtils P R) (I : QgsMeshLayerInterpolator P R)
    (extent : R) (width height : Nat) (feedback : Option QgsRasterBlockFeedback)
    (Inv : QgsRasterBlock → Prop) (h0 : Inv (QgsRasterBlock.create width height))
    (hstep : ∀ i, Reached I feedback i →
      ∀ s s', Inv s → triangleStep U I extent width i s = .ok s' → Inv s')
    (r : QgsRasterBlock) (h : block U I extent width height feedback = .ok r) : Inv r := by
  unfold block at h
  simp only at h
  split at h
  · simp at h
  · refine triangleLoop_invariant_from U I extent width feedback Inv _ 0 ?_ _ r h0 h
    intro i _ hpolls s s' hs hst
    exact hstep i (fun x hx => hpolls x (Nat.zero_le x) hx) s s' hs hst

theorem dataFromTriangles_create (U : MeshLayerUtils P R) (I : QgsMeshLayerInterpolator P R)
    (extent : R) (width height : Nat) (feedback : Option QgsRasterBlockFeedback) :
    DataFromTriangles U I extent width feedback (QgsRasterBlock.create width height) := by
  refine ⟨rfl, ?_⟩
  intro row col c _ hc hnd
  have := List.getElem?_mem hc
  simp only [QgsRasterBlock.create, List.mem_replicate] at this
  rw [this.2] at hnd
  exact absurd hnd (by decide)

theorem dataFromTriangles_triangleStep (U : MeshLayerUtils P R) (I : QgsMeshLayerInterpolator P R)
    (extent : R) (width : Nat) (feedback : Option QgsRasterBlockFeedback)
    (hW : I.mOutputSize.width ≤ width) (i : Nat) (hreach : Reached I feedback i)
    (s s' : QgsRasterBlock) (hs : DataFromTriangles U I extent width feedback s)
    (h : triangleStep U I extent width i s = .ok s') :
    DataFromTriangles U I extent width feedback s' := by
  obtain ⟨t, ht, hcase | hcase | hcase⟩ := triangleStep_ok h
  · rw [hcase.2]; exact hs
  · rw [hcase.2.2]; exact hs
  · obtain ⟨h0t, h0l, hr, -⟩ := screenRectangle_bounds I.mContext I.mOutputSize
      (U.triangleBoundingBox t.p1 t.p2 t.p3)
    refine scanRectangle_invariant U I width i t _ (DataFromTriangles U I extent width feedback)
      ?_ s s' hs hcase.2.2
    intro j k hj1 hj2 hk1 hk2 s1 s2 hs1 hpix
    have hj : 0 ≤ j := le_trans h0t hj1
    have hk0 : 0 ≤ k := le_trans h0l hk1
    have hk : k < width := by
      have : (I.mOutputSize.width : Int) ≤ width := by exact_mod_cast hW
      omega
    refine ⟨?_, ?_⟩
    · obtain ⟨val, -, hc | hc⟩ := pixelStep_ok hpix
      · rw [hc.2]; exact hs1.1
      · obtain ⟨-, -, -, hwd, -⟩ := writeData_ok hc.2
        rw [hwd]; exact hs1.1
    · intro row col c hcol hc hnd
      by_cases hsame : j = row ∧ k = col
      · obtain ⟨rfl, rfl⟩ := hsame
        obtain ⟨val, hval, hv | hv⟩ := pixelStep_cell_same hpix
        · rw [hv.2] at hc
          exact hs1.2 row col c hcol hc hnd
        · rw [hv.2] at hc
          simp only [Option.some.injEq] at hc
          subst hc
          exact ⟨i, val, hreach,
            ⟨t, ht, hcase.1, hcase.2.1, hj1, hj2, hk1, hk2, hval, hv.1⟩, rfl⟩
      · rw [pixelStep_cell_other hj hk0 hk hpix row col hcol hsame] at hc
        exact hs1.2 row col c hcol hc hnd

/-- When the raster is at least as wide as the size given to the constructor,
every pixel that the returned raster marks as data holds a value that some
processed triangle yields at that pixel. -/
theorem block_dataFromTriangles (U : MeshLayerUtils P R) (I : QgsMeshLayerInterpolator P R)
    (extent : R) (width height : Nat) (feedback : Option QgsRasterBlockFeedback)
    (hW : I.mOutputSize.width ≤ width) (r : QgsRasterBlock)
    (h : block U I extent width height feedback = .ok r) (row col : Nat) (hcol : col < width)
    (hnd : r.isNoData row col = false) :
    ∃ i val, Reached I feedback i ∧ YieldsAt U I extent i row col val ∧
      r.value row col = val := by
  have hinv := block_invariant_reached U I extent width height feedback
    (DataFromTriangles U I extent width feedback)
    (dataFromTriangles_create U I extent width height feedback)
    (fun i hi s s' hs hstep =>
      dataFromTriangles_triangleStep U I extent width feedback hW i hi s s' hs hstep) r h
  unfold QgsRasterBlock.isNoData at hnd
  unfold QgsRasterBlock.value
  rw [hinv.1] at hnd ⊢
  cases hc : r.cells[row * width + col]? with
  | none => simp [hc] at hnd
  | some c =>
    simp only [hc] at hnd ⊢
    exact hinv.2 row col c hcol hc hnd

theorem forEach_spec {α σ : Type} (body : α → σ → Except BlockError σ) (Inv : σ → Prop)
    (Q : BlockError → Prop) (xs : List α)
    (hbody : ∀ x ∈ xs, ∀ s, Inv s →
      (∀ s', body x s = .ok s' → Inv s') ∧ (∀ e, body x s = .error e → Q e))
    (s : σ) (hs : Inv s) :
    (∀ s', forEach body xs s = .ok s' → Inv s') ∧ (∀ e, forEach body xs s = .error e → Q e) := by
  induction xs generalizing s with
  | nil =>
    constructor
    · intro s' h
      simp only [forEach, Except.ok.injEq] at h
      exact h ▸ hs
    · intro e h
      simp [forEach] at h
  | cons x xs ih =>
    obtain ⟨hok, herr⟩ := hbody x (List.mem_cons_self _ _) s hs
    cases hx : body x s with
    | error e1 =>
      constructor
      · intro s' h
        simp [forEach, hx] at h
      · intro e h
        simp only [forEach, hx, Except.error.injEq] at h
        exact h ▸ herr e1 hx
    | ok s1 =>
      have := ih (fun y hy => hbody y (List.mem_cons_of_mem _ hy)) s1 (hok s1 hx)
      simpa only [forEach, hx] using this

/-- When the raster is at least as large as the size given to the constructor,
a step of the triangle loop keeps the length of the buffer and never writes
outside it. -/
theorem triangleStep_in_buffer (U : MeshLayerUtils P R) (I : QgsMeshLayerInterpolator P R)
    (extent : R) (width height : Nat) (hW : I.mOutputSize.width ≤ width)
    (hH : I.mOutputSize.height ≤ height) (i : Nat) (s : QgsRasterBlock)
    (hs : s.cells.length = width * height) :
    (∀ s', triangleStep U I extent width i s = .ok s' → s'.cells.length = width * height) ∧
    (∀ e, triangleStep U I extent width i s = .error e → e = .indexOutOfRange) := by
  unfold triangleStep
  cases ht : readTriangle I i with
  | error e =>
    refine ⟨fun s' h => by simp at h, fun e' h => ?_⟩
    simp only [Except.error.injEq] at h
    exact h ▸ readTriangle_error e ht
  | ok t =>
    simp only
    split
    · exact ⟨fun s' h => by simp only [Except.ok.injEq] at h; exact h ▸ hs,
        fun e h => by simp at h⟩
    · split
      · exact ⟨fun s' h => by simp only [Except.ok.injEq] at h; exact h ▸ hs,
          fun e h => by simp at h⟩
      · obtain ⟨h0t, h0l, hr, hb⟩ := screenRectangle_bounds I.mContext I.mOutputSize
          (U.triangleBoundingBox t.p1 t.p2 t.p3)
        have hwI : (I.mOutputSize.width : Int) ≤ width := by exact_mod_cast hW
        have hhI : (I.mOutputSize.height : Int) ≤ height := by exact_mod_cast hH
        unfold scanRectangle
        refine forEach_spec _ (fun x => x.cells.length = width * height)
          (fun e => e = .indexOutOfRange) _ ?_ s hs
        intro j hj s1 hs1
        have hjb := mem_counterValues.1 hj
        unfold scanLine
        refine forEach_spec _ (fun x => x.cells.length = width * height)
          (fun e => e = .indexOutOfRange) _ ?_ s1 hs1
        intro k hk s2 hs2
        have hkb := mem_counterValues.1 hk
        have hflat := @flat_index_lt width height j k (le_trans h0t hjb.1) (by omega)
          (le_trans h0l hkb.1) (by omega)
        unfold pixelStep
        cases hv : pixelValue U I i t j k with
        | error e =>
          refine ⟨fun s' h => by simp at h, fun e' h => ?_⟩
          simp only [Except.error.injEq] at h
          exact h ▸ pixelValue_error e hv
        | ok val =>
          simp only
          split
          · have hcond : 0 ≤ j * (width : Int) + k ∧
                j * (width : Int) + k < (s2.cells.length : Int) := by
              rw [hs2]; exact hflat
            simp only [QgsRasterBlock.writeData, hcond, and_self, if_true]
            exact ⟨fun s' h => by
                simp only [Except.ok.injEq] at h
                rw [← h]
                simpa using hs2,
              fun e h => by simp at h⟩
          · exact ⟨fun s' h => by simp only [Except.ok.injEq] at h; exact h ▸ hs2,
              fun e h => by simp at h⟩

theorem triangleLoop_spec (U : MeshLayerUtils P R) (I : QgsMeshLayerInterpolator P R)
    (extent : R) (width : Nat) (feedback : Option QgsRasterBlockFeedback)
    (Inv : QgsRasterBlock → Prop) (Q : BlockError → Prop)
    (hstep : ∀ i s, Inv s →
      (∀ s', triangleStep U I extent width i s = .ok s' → Inv s') ∧
      (∀ e, triangleStep U I extent width i s = .error e → Q e))
    (n i : Nat) (out : QgsRasterBlock) (hout : Inv out) (e : BlockError)
    (h : triangleLoop U I extent width feedback n i out = .error e) : Q e := by
  induction n generalizing i out with
  | zero => simp [triangleLoop] at h
  | succ n ih =>
    simp only [triangleLoop] at h
    split at h
    · simp at h
    · split at h
      · simp at h
      · cases hx : triangleStep U I extent width i out with
        | error e1 =>
          simp only [hx, Except.error.injEq] at h
          exact h ▸ (hstep i out hout).2 e1 hx
        | ok out1 =>
          simp only [hx] at h
          exact ih (i + 1) out1 ((hstep i out hout).1 out1 hx) h

end Cells

/-! ## The properties of the specification -/

section Properties

variable {P R : Type}

/-- C2: if cancellation (the feedback's `isCanceled` or the context's
`renderingStopped`) first answers true when the loop reaches triangle index
`k < N`, then `block` returns exactly what it returns, with no cancellation at
all, for the mesh restricted to its first `k` triangles. -/
theorem block_cancelled_eq_block_firstTriangles (U : MeshLayerUtils P R)
    (I : QgsMeshLayerInterpolator P R) (extent : R) (width height : Nat)
    (feedback : Option QgsRasterBlockFeedback) (k : Nat)
    (hk : k < I.mTriangularMesh.triangles.length)
    (hquiet : ∀ i, i < k →
      feedbackCanceled feedback i = false ∧ I.mContext.renderingStopped i = false)
    (hat : feedbackCanceled feedback k = true ∨ I.mContext.renderingStopped k = true) :
    block U I extent width height feedback =
      block U (I.firstTriangles k).neverStopped extent width height none := by
  have hs : SameStatic (I.firstTriangles k).neverStopped I :=
    (SameStatic.neverStopped _).trans (SameStatic.withTriangles I _ _)
  have hlen : (I.firstTriangles k).neverStopped.mTriangularMesh.triangles.length = k := by
    show (I.mTriangularMesh.triangles.take k).length = k
    rw [List.length_take]
    omega
  have hstep : ∀ i, i < k → ∀ out,
      triangleStep U (I.firstTriangles k).neverStopped extent width i out =
        triangleStep U I extent width i out := by
    intro i hi out
    apply triangleStep_congr U hs
    · exact List.getElem?_take_of_lt hi
    · exact List.getElem?_take_of_lt hi
  have hloop := triangleLoop_cancelled U I (I.firstTriangles k).neverStopped extent width
    feedback k hquiet hat (fun _ => rfl) hstep I.mTriangularMesh.triangles.length 0
    (QgsRasterBlock.create width height) (Nat.zero_le k) (by omega)
  rw [Nat.sub_zero] at hloop
  simp only [block, hlen, hs.mode, hs.values, hs.vertices, hloop]

theorem block_cancelled_eq_block_firstTriangles_witness :
    (1 < Grid.square.mTriangularMesh.triangles.length) ∧
    (∀ i, i < 1 → feedbackCanceled (some (Grid.cancelFrom 1)) i = false ∧
      Grid.square.mContext.renderingStopped i = false) ∧
    (feedbackCanceled (some (Grid.cancelFrom 1)) 1 = true ∨
      Grid.square.mContext.renderingStopped 1 = true) ∧
    block Grid.utils Grid.square Grid.extent 2 2 (some (Grid.cancelFrom 1)) =
      block Grid.utils (Grid.square.firstTriangles 1).neverStopped Grid.extent 2 2 none :=
  ⟨by decide, by decide, by decide,
    block_cancelled_eq_block_firstTriangles Grid.utils Grid.square Grid.extent 2 2
      (some (Grid.cancelFrom 1)) 1 (by decide) (by decide) (by decide)⟩

/-- C4, evaluated where the code departs from it. In face mode the value array
has one value for two native faces. Nothing is checked before the loop: the
first triangle is processed and its value read and written, and the run fails
only at the second triangle, by the read of the missing value; cancelled after
the first triangle, the call returns a raster. -/
theorem block_onFaces_short_values_not_rejected :
    Grid.squareShortValues.mDataOnVertices = false ∧
    Grid.squareShortValues.mDatasetValues.length = 1 ∧
    Grid.squareShortValues.mActiveFaceFlagValues.length = 2 ∧
    triangleStep Grid.utils Grid.squareShortValues Grid.extent 2 0 (QgsRasterBlock.create 2 2) =
      .ok ⟨2, 2, [⟨Grid.five, false⟩, Grid.unset, ⟨Grid.five, false⟩, ⟨Grid.five, false⟩]⟩ ∧
    block Grid.utils Grid.squareShortValues Grid.extent 2 2 none = .error .indexOutOfRange ∧
    block Grid.utils Grid.squareShortValues Grid.extent 2 2 (some (Grid.cancelFrom 1)) =
      .ok ⟨2, 2, [⟨Grid.five, false⟩, Grid.unset, ⟨Grid.five, false⟩, ⟨Grid.five, false⟩]⟩ :=
  ⟨rfl, rfl, rfl, rfl, rfl, rfl⟩

/-- C5, evaluated where the code departs from it. The interpolator is built for
a `2 × 2` raster and `block` is called for a `1 × 1` raster. The rectangle
scanned for the triangle is clipped to the constructor's size, rows `0..1` and
columns `0..1`, and the write for pixel row `0`, column `1` falls outside the
buffer of the one-cell raster. -/
theorem block_writes_outside_raster :
    boundingBoxToScreenRectangle Grid.oneTriangle.mContext Grid.oneTriangle.mOutputSize
      (Grid.triangleBoundingBox (0, 3) (2, 1) (3, 3)) =
      { leftLim := 0, rightLim := 1, topLim := 0, bottomLim := 1 } ∧
    pixelValue Grid.utils Grid.oneTriangle 0 Grid.oneTriangleLocals 0 1 = .ok Grid.five ∧
    block Grid.utils Grid.oneTriangle Grid.extent 1 1 none = .error .bufferOverrun :=
  ⟨rfl, rfl, rfl⟩

/-- C6 as stated fails: the only triangle yields `+infinity`, which is not
finite, at pixel row `0`, column `1`, and the returned raster stores it there
and marks the cell as data. -/
theorem block_stores_infinity :
    infinity.isfinite = false ∧ infinity.isnan = false ∧
    Grid.infiniteFace.mTriangularMesh.triangles.length = 1 ∧
    readTriangle Grid.infiniteFace 0 = .ok Grid.oneTriangleLocals ∧
    pixelValue Grid.utils Grid.infiniteFace 0 Grid.oneTriangleLocals 0 1 = .ok infinity ∧
    block Grid.utils Grid.infiniteFace Grid.extent 2 2 none =
      .ok ⟨2, 2, [Grid.unset, ⟨infinity, false⟩, Grid.unset, Grid.unset]⟩ :=
  ⟨by decide, by decide, rfl, rfl, rfl, rfl⟩

/-- C6 (amended): in the raster returned by `block` a cell marked as data never
holds NaN, so a NaN result never clears a no-data mark and is never stored,
while an infinite result, which is not NaN, is stored. And for a raster at least
as wide as the size given to the constructor, a cell is marked as data only if
some triangle processed by the loop (reads in bounds, native face active,
bounding box intersecting the extent, the pixel inside its scanned rectangle)
yields at that pixel's map coordinate a value that is not NaN, and the cell
holds that value. -/
theorem block_data_only_if_not_nan (U : MeshLayerUtils P R) (I : QgsMeshLayerInterpolator P R)
    (extent : R) (width height : Nat) (feedback : Option QgsRasterBlockFeedback)
    (r : QgsRasterBlock) (h : block U I extent width height feedback = .ok r)
    (row col : Nat) (hnd : r.isNoData row col = false) :
    (r.value row col).isnan = false ∧
    (I.mOutputSize.width ≤ width → col < width →
      ∃ i val, Reached I feedback i ∧ YieldsAt U I extent i row col val ∧
        val.isnan = false ∧ r.value row col = val) := by
  constructor
  · rw [← block_isNoData_iff_isnan U I extent width height feedback r h row col]
    exact hnd
  · intro hW hcol
    obtain ⟨i, val, hreach, hcl, hval⟩ :=
      block_dataFromTriangles U I extent width height feedback hW r h row col hcol hnd
    obtain ⟨t, h1, h2, h3, h4, h5, h6, h7, h8, h9⟩ := hcl
    exact ⟨i, val, hreach, ⟨t, h1, h2, h3, h4, h5, h6, h7, h8, h9⟩, h9, hval⟩

theorem block_data_only_if_not_nan_witness :
    block Grid.utils Grid.infiniteFace Grid.extent 2 2 none =
      .ok ⟨2, 2, [Grid.unset, ⟨infinity, false⟩, Grid.unset, Grid.unset]⟩ ∧
    QgsRasterBlock.isNoData
      ⟨2, 2, [Grid.unset, ⟨infinity, false⟩, Grid.unset, Grid.unset]⟩ 0 1 = false ∧
    Grid.infiniteFace.mOutputSize.width ≤ 2 ∧
    ((QgsRasterBlock.value
        ⟨2, 2, [Grid.unset, ⟨infinity, false⟩, Grid.unset, Grid.unset]⟩ 0 1).isnan = false ∧
      (Grid.infiniteFace.mOutputSize.width ≤ 2 → 1 < 2 →
        ∃ i val, Reached Grid.infiniteFace none i ∧
          YieldsAt Grid.utils Grid.infiniteFace Grid.extent i ((0 : Nat) : Int)
            ((1 : Nat) : Int) val ∧ val.isnan = false ∧
          QgsRasterBlock.value
            ⟨2, 2, [Grid.unset, ⟨infinity, false⟩, Grid.unset, Grid.unset]⟩ 0 1 = val)) :=
  ⟨rfl, rfl, by decide,
    block_data_only_if_not_nan Grid.utils Grid.infiniteFace Grid.extent 2 2 none _ rfl 0 1 rfl⟩

/-- C7: in face mode, when triangle `i0` is the only one whose native face is
active and that face, `trianglesToNativeFaces[i0]`, carries the value `v` in the
value array, every pixel that the returned raster marks as data holds exactly
`v`. -/
theorem block_onFaces_single_triangle (U : MeshLayerUtils P R)
    (I : QgsMeshLayerInterpolator P R) (extent : R) (width height : Nat)
    (feedback : Option QgsRasterBlockFeedback) (i0 nativeFace : Nat) (v : Dbl)
    (r : QgsRasterBlock)
    (hmode : I.mDataOnVertices = false)
    (hface : I.mTriangularMesh.trianglesToNativeFaces[i0]? = some nativeFace)
    (hv : I.mDatasetValues[nativeFace]? = some v)
    (hothers : ∀ i n, i ≠ i0 → I.mTriangularMesh.trianglesToNativeFaces[i]? = some n →
      I.mActiveFaceFlagValues[n]? ≠ some true)
    (h : block U I extent width height feedback = .ok r) :
    ∀ row col, r.isNoData row col = false → r.value row col = v := by
  have hinv : ∀ c ∈ r.cells, c.noData = false → c.value = v := by
    refine block_invariant U I extent width height feedback
      (fun s => ∀ c ∈ s.cells, c.noData = false → c.value = v) ?_ ?_ r h
    · intro c hc hnd
      simp only [QgsRasterBlock.create, List.mem_replicate] at hc
      rw [hc.2] at hnd
      exact absurd hnd (by decide)
    · intro i s s' hs hstep
      obtain ⟨t, ht, hcase | hcase | hcase⟩ := triangleStep_ok hstep
      · rw [hcase.2]; exact hs
      · rw [hcase.2.2]; exact hs
      · obtain ⟨face, -, -, -, -, -, -, -, hnf, ha⟩ := readTriangle_ok ht
        have hi : i = i0 := by
          by_contra hne
          exact hothers i _ hne hnf (hcase.1 ▸ ha)
        subst hi
        refine scanRectangle_invariant U I width i t _
          (fun s => ∀ c ∈ s.cells, c.noData = false → c.value = v) ?_ s s' hs hcase.2.2
        intro j k _ _ _ _ s1 s2 hs1 hpix c hc hnd
        obtain ⟨val, hval, hn | hn⟩ := pixelStep_ok hpix
        · rw [hn.2] at hc
          exact hs1 c hc hnd
        · obtain ⟨-, -, hcells, -, -⟩ := writeData_ok hn.2
          rw [hcells] at hc
          rcases List.mem_or_eq_of_mem_set hc with hc | hc
          · exact hs1 c hc hnd
          · obtain ⟨face', v', hf', hv', hor⟩ := pixelValue_onFaces hmode hval
            rw [hface] at hf'
            simp only [Option.some.injEq] at hf'
            subst hf'
            rw [hv] at hv'
            simp only [Option.some.injEq] at hv'
            subst hv'
            rcases hor with hor | hor
            · rw [hc]; exact hor
            · rw [hn.1] at hor
              exact absurd hor (by decide)
  intro row col hnd
  unfold QgsRasterBlock.isNoData at hnd
  unfold QgsRasterBlock.value
  cases hc : r.cells[row * r.width + col]? with
  | none => simp [hc] at hnd
  | some c =>
    simp only [hc] at hnd ⊢
    exact hinv c (List.getElem?_mem hc) hnd

theorem block_onFaces_single_triangle_witness :
    Grid.faceOne.mDataOnVertices = false ∧
    Grid.faceOne.mTriangularMesh.trianglesToNativeFaces[0]? = some 1 ∧
    Grid.faceOne.mDatasetValues[1]? = some Grid.seven ∧
    Grid.faceOne.mDatasetValues[0]? = some Grid.five ∧
    (∀ i n, i ≠ 0 → Grid.faceOne.mTriangularMesh.trianglesToNativeFaces[i]? = some n →
      Grid.faceOne.mActiveFaceFlagValues[n]? ≠ some true) ∧
    block Grid.utils Grid.faceOne Grid.extent 2 2 none =
      .ok ⟨2, 2, [⟨Grid.seven, false⟩, Grid.unset, ⟨Grid.seven, false⟩, ⟨Grid.seven, false⟩]⟩ ∧
    (QgsRasterBlock.isNoData
        ⟨2, 2, [⟨Grid.seven, false⟩, Grid.unset, ⟨Grid.seven, false⟩, ⟨Grid.seven, false⟩]⟩
        0 0 = false →
      QgsRasterBlock.value
        ⟨2, 2, [⟨Grid.seven, false⟩, Grid.unset, ⟨Grid.seven, false⟩, ⟨Grid.seven, false⟩]⟩
        0 0 = Grid.seven) :=
  have hothers : ∀ i n, i ≠ 0 →
      Grid.faceOne.mTriangularMesh.trianglesToNativeFaces[i]? = some n →
      Grid.faceOne.mActiveFaceFlagValues[n]? ≠ some true := by
    intro i n hi hn
    cases i with
    | zero => exact absurd rfl hi
    | succ i => simp [Grid.faceOne] at hn
  ⟨rfl, rfl, rfl, rfl, hothers, rfl,
    block_onFaces_single_triangle Grid.utils Grid.faceOne Grid.extent 2 2 none 0 1 Grid.seven _
      rfl rfl rfl hothers rfl 0 0⟩

/-- C10: under the preconditions (three vertex indices per triangle, each below
the vertex count; one native face per triangle, each below the face count; one
active flag per native face; as many values as vertices in vertex mode, as
native faces in face mode) every read that `block` performs is inside its
vector: for every triangle the reads of `triangles[i]`, `face[0..2]`,
`vertices[v]`, `trianglesToNativeFaces[i]` and `active( nativeFaceIndex )`
succeed, for every pixel the reads of `mDatasetValues` succeed, and no run of
`block` ends with an index out of range. -/
theorem block_reads_in_bounds (U : MeshLayerUtils P R) (I : QgsMeshLayerInterpolator P R)
    (extent : R) (width height : Nat) (feedback : Option QgsRasterBlockFeedback)
    (nativeFaceCount : Nat) (hwf : WellFormed I nativeFaceCount) :
    (∀ i, i < I.mTriangularMesh.triangles.length →
      ∃ t, readTriangle I i = .ok t ∧ ∀ j k, ∃ val, pixelValue U I i t j k = .ok val) ∧
    block U I extent width height feedback ≠ .error .indexOutOfRange := by
  constructor
  · intro i hi
    obtain ⟨t, ht, h1, h2, h3, hn, hlt⟩ := readTriangle_of_wellFormed hwf hi
    exact ⟨t, ht, pixelValue_of_wellFormed U hwf h1 h2 h3 hn hlt⟩
  · intro h
    unfold block at h
    simp only at h
    split at h
    · simp at h
    · have := triangleLoop_error U I extent width feedback (fun e => e = .bufferOverrun)
        (fun i hi s e he => triangleStep_error_of_wellFormed U hwf extent width hi s e he)
        _ 0 _ _ (by omega) h
      simp at this

theorem wellFormed_square : WellFormed Grid.square 2 := by
  constructor <;> decide

theorem block_reads_in_bounds_witness :
    WellFormed Grid.square 2 ∧
    ((∀ i, i < Grid.square.mTriangularMesh.triangles.length →
      ∃ t, readTriangle Grid.square i = .ok t ∧
        ∀ j k, ∃ val, pixelValue Grid.utils Grid.square i t j k = .ok val) ∧
    block Grid.utils Grid.square Grid.extent 2 2 none ≠ .error .indexOutOfRange) :=
  ⟨wellFormed_square,
    block_reads_in_bounds Grid.utils Grid.square Grid.extent 2 2 none 2 wellFormed_square⟩

/-! ### Supplements

What C5 says does hold when `block` is called for a raster that fits the size
given to the constructor, and what C4 says holds in vertex mode. -/

/-- Supplement to C5, for a raster at least as large as the size given to the
constructor: no write of `block` falls outside the buffer of the raster. -/
theorem block_writes_in_buffer (U : MeshLayerUtils P R) (I : QgsMeshLayerInterpolator P R)
    (extent : R) (width height : Nat) (feedback : Option QgsRasterBlockFeedback)
    (hW : I.mOutputSize.width ≤ width) (hH : I.mOutputSize.height ≤ height) :
    block U I extent width height feedback ≠ .error .bufferOverrun := by
  intro h
  unfold block at h
  simp only at h
  split at h
  · simp at h
  · have := triangleLoop_spec U I extent width feedback
      (fun x => x.cells.length = width * height) (fun e => e = .indexOutOfRange)
      (fun i s hs => triangleStep_in_buffer U I extent width height hW hH i s hs)
      _ 0 _ (by simp [QgsRasterBlock.create]) _ h
    simp at this

theorem block_writes_in_buffer_witness :
    Grid.square.mOutputSize.width ≤ 2 ∧ Grid.square.mOutputSize.height ≤ 2 ∧
    block Grid.utils Grid.square Grid.extent 2 2 none ≠ .error .bufferOverrun :=
  ⟨by decide, by decide,
    block_writes_in_buffer Grid.utils Grid.square Grid.extent 2 2 none (by decide) (by decide)⟩

/-- Supplement to C5 and C10: under the preconditions of C10, and for a raster at least as large as
the size given to the constructor, `block` returns a raster. -/
theorem block_returns (U : MeshLayerUtils P R) (I : QgsMeshLayerInterpolator P R)
    (extent : R) (width height : Nat) (feedback : Option QgsRasterBlockFeedback)
    (nativeFaceCount : Nat) (hwf : WellFormed I nativeFaceCount)
    (hW : I.mOutputSize.width ≤ width) (hH : I.mOutputSize.height ≤ height) :
    ∃ r, block U I extent width height feedback = .ok r := by
  cases hb : block U I extent width height feedback with
  | ok r => exact ⟨r, rfl⟩
  | error e =>
    exfalso
    have h1 := block_writes_in_buffer U I extent width height feedback hW hH
    rw [hb] at h1
    unfold block at hb
    simp only at hb
    split at hb
    · rename_i hc
      have hv := hwf.values
      simp only [Bool.and_eq_true, bne_iff_ne, ne_eq] at hc
      rw [hc.1] at hv
      exact hc.2 hv
    · have h2 := triangleLoop_error U I extent width feedback (fun e => e = .bufferOverrun)
        (fun i hi s e he => triangleStep_error_of_wellFormed U hwf extent width hi s e he)
        _ 0 _ _ (by omega) hb
      exact h1 (by rw [h2])

theorem block_returns_witness :
    WellFormed Grid.square 2 ∧ Grid.square.mOutputSize.width ≤ 2 ∧
    Grid.square.mOutputSize.height ≤ 2 ∧
    ∃ r, block Grid.utils Grid.square Grid.extent 2 2 none = .ok r :=
  ⟨wellFormed_square, by decide, by decide,
    block_returns Grid.utils Grid.square Grid.extent 2 2 none 2 wellFormed_square (by decide)
      (by decide)⟩

/-- Supplement to C4, vertex mode: when the data is on vertices and the value array
does not have as many values as the mesh has vertices, the assertion before the
loop fails and `block` processes no triangle. -/
theorem block_onVertices_length_mismatch (U : MeshLayerUtils P R)
    (I : QgsMeshLayerInterpolator P R) (extent : R) (width height : Nat)
    (feedback : Option QgsRasterBlockFeedback) (hmode : I.mDataOnVertices = true)
    (hlen : I.mDatasetValues.length ≠ I.mTriangularMesh.vertices.length) :
    block U I extent width height feedback = .error .assertFailed := by
  simp [block, hmode, hlen]

theorem block_onVertices_length_mismatch_witness :
    Grid.squareOnVertices.mDataOnVertices = true ∧
    Grid.squareOnVertices.mDatasetValues.length ≠
      Grid.squareOnVertices.mTriangularMesh.vertices.length ∧
    block Grid.utils Grid.squareOnVertices Grid.extent 2 2 none = .error .assertFailed :=
  ⟨rfl, by decide,
    block_onVertices_length_mismatch Grid.utils Grid.squareOnVertices Grid.extent 2 2 none rfl
      (by decide)⟩

/-- Supplement to C2: when the assertion before the loop holds and either the mesh has no
triangle or a poll answers "cancelled" at the first triangle, `block` returns
the raster in which every pixel is no-data; this is a normal return, not an
error. -/
theorem block_without_triangles (U : MeshLayerUtils P R) (I : QgsMeshLayerInterpolator P R)
    (extent : R) (width height : Nat) (feedback : Option QgsRasterBlockFeedback)
    (hassert : I.mDataOnVertices = true →
      I.mDatasetValues.length = I.mTriangularMesh.vertices.length)
    (hnone : I.mTriangularMesh.triangles = [] ∨ feedbackCanceled feedback 0 = true ∨
      I.mContext.renderingStopped 0 = true) :
    block U I extent width height feedback = .ok (QgsRasterBlock.create width height) := by
  have hc : ¬ ((I.mDataOnVertices &&
      I.mDatasetValues.length != I.mTriangularMesh.vertices.length) = true) := by
    simp only [Bool.and_eq_true, bne_iff_ne, ne_eq, not_and, not_not]
    exact hassert
  simp only [block, hc, if_false]
  cases hlen : I.mTriangularMesh.triangles.length with
  | zero => rfl
  | succ n =>
    have hne : I.mTriangularMesh.triangles ≠ [] := by
      intro h0
      rw [h0] at hlen
      simp at hlen
    rcases hnone with h0 | h0 | h0
    · exact absurd h0 hne
    · simp [triangleLoop, h0]
    · cases hf : feedbackCanceled feedback 0 <;> simp [triangleLoop, h0, hf]

theorem block_without_triangles_witness :
    (Grid.square.mDataOnVertices = true →
      Grid.square.mDatasetValues.length = Grid.square.mTriangularMesh.vertices.length) ∧
    (Grid.square.mTriangularMesh.triangles = [] ∨
      feedbackCanceled (some (Grid.cancelFrom 0)) 0 = true ∨
      Grid.square.mContext.renderingStopped 0 = true) ∧
    block Grid.utils Grid.square Grid.extent 2 2 (some (Grid.cancelFrom 0)) =
      .ok (QgsRasterBlock.create 2 2) :=
  ⟨by decide, Or.inr (Or.inl rfl),
    block_without_triangles Grid.utils Grid.square Grid.extent 2 2 (some (Grid.cancelFrom 0))
      (by decide) (Or.inr (Or.inl rfl))⟩

end Properties

end QgsMesh
